import Mathlib

set_option maxRecDepth 1000000

/-!
Shallow embedding of the Burnvelope one-time-secret service.

Sources embedded here:
* `src/lib/crypto.ts` — base64 / base64url codecs, `generateKey`, `encrypt`,
  `decrypt`, `isValidKey` (client encryption contract);
* `functions/api/secrets/[id].ts` — `onRequestGet` (RetrieveSecret) and
  `serverDecrypt`;
* the POST `/api/secrets` handler — CreateSecret, TTL clamping, `serverEncrypt`.

Strings of the TypeScript code are modelled as `List Char`; binary buffers
(`Uint8Array` / `ArrayBuffer`) as `List Nat` with each element `< 256`.
The Web Crypto primitives (AES-GCM, HKDF) are platform APIs, not code of this
repository; they are modelled symbolically (see `aeadEncrypt` below), while
every structural step — buffer layouts, slice offsets, base64 layers, the HKDF
info label, validation and store logic — is translated from the source.
-/

namespace Burnvelope

/-- Byte buffers (`Uint8Array` contents): lists of naturals, each `< 256`. -/
abbrev Bytes := List Nat

/-- The standard base64 alphabet used by `btoa` / `atob`. -/
def b64Alphabet : List Char :=
  ("ABCDEFGHIJKLMNOPQRSTUVWXYZabcdefghijklmnopqrstuvwxyz0123456789+/").toList

/-- Character of a 6-bit value under the base64 alphabet. -/
def sextetToChar (n : Nat) : Char := b64Alphabet.getD n 'A'

/-- Index of a character in a character list (first occurrence). -/
def findIdx (c : Char) : List Char → Option Nat
  | [] => none
  | x :: xs => if x = c then some 0 else (findIdx c xs).map (· + 1)

/-- The 6-bit value of a base64 character, `none` if the character is not in the
alphabet (`atob` throws in that case). -/
def charToSextet (c : Char) : Option Nat := findIdx c b64Alphabet

/-- The 6-bit groups of a byte list, per the base64 chunking that `btoa`
performs (3 bytes → 4 sextets; 1 trailing byte → 2 sextets; 2 → 3). -/
def bytesToSextets : Bytes → List Nat
  | [] => []
  | [a] => [a / 4, a % 4 * 16]
  | [a, b] => [a / 4, a % 4 * 16 + b / 16, b % 16 * 4]
  | a :: b :: c :: rest =>
      a / 4 :: (a % 4 * 16 + b / 16) :: (b % 16 * 4 + c / 64) :: c % 64 ::
        bytesToSextets rest

/-- Number of `'='` padding characters `btoa` appends. -/
def padCount (bs : Bytes) : Nat :=
  match bs.length % 3 with
  | 0 => 0
  | 1 => 2
  | _ => 1

/-- Model of `btoa` on a binary string holding the given bytes: standard base64 with
`'='` padding.  Embeds `arrayBufferToBase64` of `crypto.ts` (and the identical
helper in the POST handler), which builds a binary string from the buffer and
calls `btoa`. -/
def arrayBufferToBase64 (bs : Bytes) : List Char :=
  (bytesToSextets bs).map sextetToChar ++ List.replicate (padCount bs) '='

/-- Step of forgiving-base64 decoding (`atob`): when the input length is a
multiple of 4, up to two trailing `'='` are removed. -/
def stripAtobPad (s : List Char) : List Char :=
  if s.length % 4 = 0 then
    if s.reverse.take 2 = ['=', '='] then (s.reverse.drop 2).reverse
    else if s.reverse.take 1 = ['='] then (s.reverse.drop 1).reverse
    else s
  else s

/-- Map every character to its sextet; `none` if any is outside the
alphabet. -/
def mapSextets : List Char → Option (List Nat)
  | [] => some []
  | c :: cs =>
      match charToSextet c, mapSextets cs with
      | some s, some ss => some (s :: ss)
      | _, _ => none

/-- Regroup sextets into bytes, per forgiving-base64: groups of 4 sextets
yield 3 bytes, a trailing group of 2 or 3 yields 1 or 2 bytes (excess bits
discarded), a trailing single sextet is an error. -/
def sextetsToBytes : List Nat → Option Bytes
  | [] => some []
  | [_] => none
  | [s1, s2] => some [s1 * 4 + s2 / 16]
  | [s1, s2, s3] => some [s1 * 4 + s2 / 16, s2 % 16 * 16 + s3 / 4]
  | s1 :: s2 :: s3 :: s4 :: rest =>
      (sextetsToBytes rest).map
        (fun bs => (s1 * 4 + s2 / 16) :: (s2 % 16 * 16 + s3 / 4) ::
          (s3 % 4 * 64 + s4) :: bs)

/-- Decoding core after padding removal: length `% 4 = 1` is an error, then
characters are mapped to sextets and regrouped into bytes. -/
def b64DecodeCore (s : List Char) : Option Bytes :=
  if s.length % 4 = 1 then none
  else (mapSextets s).bind sextetsToBytes

/-- Model of `atob`, per the WHATWG forgiving-base64 algorithm, returning the byte
values of the resulting binary string.  Embeds `base64ToArrayBuffer` of the
source (which calls `atob` and reads the char codes); `none` models the
exception `atob` throws on malformed input. -/
def atobModel (s : List Char) : Option Bytes := b64DecodeCore (stripAtobPad s)

/-- Substitution of plus by minus and slash by underscore (the two `replace`
calls of `arrayBufferToBase64url`). -/
def toUrlChar (c : Char) : Char :=
  if c = '+' then '-' else if c = '/' then '_' else c

/-- Substitution of minus by plus and underscore by slash (the two `replace`
calls of `base64urlToArrayBuffer`). -/
def fromUrlChar (c : Char) : Char :=
  if c = '-' then '+' else if c = '_' then '/' else c

/-- Removal of all trailing padding characters, the final `replace` of
`arrayBufferToBase64url`. -/
def stripTrailingEq (s : List Char) : List Char :=
  (s.reverse.dropWhile (fun c => c = '=')).reverse

/-- Embeds `arrayBufferToBase64url` of `crypto.ts`: base64, then the URL-safe
substitution, then trailing padding stripped. -/
def arrayBufferToBase64url (bs : Bytes) : List Char :=
  stripTrailingEq ((arrayBufferToBase64 bs).map toUrlChar)

/-- Re-add `'='` padding up to a multiple of 4, as `base64urlToArrayBuffer`
does before calling `atob`. -/
def addPadding (s : List Char) : List Char :=
  if s.length % 4 = 0 then s
  else s ++ List.replicate (4 - s.length % 4) '='

/-- Embeds `base64urlToArrayBuffer` of `crypto.ts`: undo the URL-safe
substitution, restore padding, then decode with `atob`. -/
def base64urlToArrayBuffer (s : List Char) : Option Bytes :=
  atobModel (addPadding (s.map fromUrlChar))

/-- Embeds `isValidKey` of `crypto.ts`: the string must base64url-decode (else the
thrown exception is caught and `false` returned) to exactly 32 bytes. -/
def isValidKey (key : List Char) : Bool :=
  match base64urlToArrayBuffer key with
  | none => false
  | some buffer => buffer.length = 32

/-- Embeds `generateKey` of `crypto.ts`, parameterised by the 32 random bytes of the
freshly generated AES-256 key (the only nondeterminism): the exported raw key
is base64url-encoded. -/
def generateKey (raw : Bytes) : List Char := arrayBufferToBase64url raw

/-! ### Symbolic AEAD and KDF

`crypto.subtle` (AES-GCM, HKDF-SHA-256) is a Web platform primitive, not code
of this repository.  Modelled from the spec: an AEAD cipher produces, from a
key, a nonce and a message, a ciphertext-plus-tag blob such that decryption
with the same key and nonce recovers the message and verifies the tag.  The
model masks each byte with a keystream value and appends a 16-byte tag
(AES-GCM's tag is 128 bits); the KDF is any deterministic function of master
key, salt and info label. -/

/-- Modelled from the spec: keystream byte `i` of the symbolic AEAD cipher. -/
def ksMask (key iv : Bytes) (i : Nat) : Nat :=
  key.sum * 3 + iv.sum * 5 + i * 7 + 11

/-- Mask a message with the keystream, starting at index `i`. -/
def maskBytes (key iv : Bytes) : Nat → Bytes → Bytes
  | _, [] => []
  | i, b :: bs => (b + ksMask key iv i) % 256 :: maskBytes key iv (i + 1) bs

/-- Unmask: inverse of `maskBytes` on bytes `< 256`. -/
def unmaskBytes (key iv : Bytes) : Nat → Bytes → Bytes
  | _, [] => []
  | i, b :: bs =>
      (b + (256 - ksMask key iv i % 256)) % 256 :: unmaskBytes key iv (i + 1) bs

/-- Modelled from the spec: the 16-byte (128-bit) authentication tag of the
symbolic AEAD, a deterministic function of key, nonce and message. -/
def tagFn (key iv msg : Bytes) : Bytes :=
  List.replicate 16 ((key.sum + iv.sum * 2 + msg.sum * 3) % 256)

/-- Modelled from the spec: AEAD encryption (`crypto.subtle` AES-GCM with
`tagLength` 128): ciphertext body followed by the 16-byte tag. -/
def aeadEncrypt (key iv msg : Bytes) : Bytes :=
  maskBytes key iv 0 msg ++ tagFn key iv msg

/-- Modelled from the spec: AEAD decryption; fails (`none`, the thrown
`OperationError`) if the blob is shorter than the tag or the tag does not
verify. -/
def aeadDecrypt (key iv ct : Bytes) : Option Bytes :=
  if ct.length < 16 then none
  else
    let body := ct.take (ct.length - 16)
    let tag := ct.drop (ct.length - 16)
    let msg := unmaskBytes key iv 0 body
    if tag = tagFn key iv msg then some msg else none

/-- Modelled from the spec: HKDF-SHA-256 key derivation
(`crypto.subtle.deriveKey`), a deterministic function of input key material,
salt and info label. -/
def hkdfDerive (ikm salt info : Bytes) : Bytes := ikm ++ salt ++ info

/-- Model of `TextEncoder().encode`: UTF-8 bytes of a string; in this byte-level model
each character stands for one byte (all strings crossing this boundary in the
source are ASCII base64 text). -/
def strToBytes (s : List Char) : Bytes := s.map Char.toNat

/-- Model of `TextDecoder().decode`, inverse of `strToBytes` on byte values that are
valid code points. -/
def bytesToStr (bs : Bytes) : List Char := bs.map Char.ofNat

/-- The fixed HKDF context label `'burnvelope-server-encryption'` used by both
`serverEncrypt` and `serverDecrypt`. -/
def serverInfo : Bytes := strToBytes (("burnvelope-server-encryption").toList)

/-- Embeds `serverEncrypt` of the POST handler, parameterised by the random `salt`
(16 bytes) and `iv` (12 bytes): decode the master key from base64 (`none`
models the throw on malformed base64), derive the per-record key, AEAD-encrypt
the UTF-8 bytes of `data`, and return `base64(salt ++ iv ++ ciphertext)`. -/
def serverEncrypt (data keyBase64 : List Char) (salt iv : Bytes) :
    Option (List Char) :=
  (atobModel keyBase64).map (fun ikm =>
    let key := hkdfDerive ikm salt serverInfo
    let ciphertext := aeadEncrypt key iv (strToBytes data)
    arrayBufferToBase64 (salt ++ iv ++ ciphertext))

/-- Embeds `serverDecrypt` of `functions/api/secrets/[id].ts`: decode the blob,
slice `salt = [0,16)`, `iv = [16,28)`, `ciphertext = [28,..)`, re-derive the
key from the master key and the same salt, AEAD-decrypt, decode as text. -/
def serverDecrypt (encryptedData keyBase64 : List Char) : Option (List Char) := do
  let combined ← atobModel encryptedData
  let salt := combined.take 16
  let iv := (combined.drop 16).take 12
  let ciphertext := combined.drop 28
  let ikm ← atobModel keyBase64
  let key := hkdfDerive ikm salt serverInfo
  let msg ← aeadDecrypt key iv ciphertext
  pure (bytesToStr msg)

/-- Embeds `importKey` of `crypto.ts`: base64url-decode the key; the raw key must be
a valid AES key (the source declares `length: 256`, i.e. 32 bytes), else
`crypto.subtle.importKey` throws (`none`). -/
def importKeyModel (keyBase64url : List Char) : Option Bytes := do
  let raw ← base64urlToArrayBuffer keyBase64url
  if raw.length = 32 then pure raw else none

/-- Embeds `encrypt` of `crypto.ts`, parameterised by the random 12-byte `iv`:
AEAD-encrypt the plaintext bytes under the imported key and return
`base64(iv ++ ciphertext)`. -/
def encrypt (plaintext keyBase64url : List Char) (iv : Bytes) :
    Option (List Char) :=
  (importKeyModel keyBase64url).map (fun key =>
    let ciphertext := aeadEncrypt key iv (strToBytes plaintext)
    arrayBufferToBase64 (iv ++ ciphertext))

/-- Embeds `decrypt` of `crypto.ts`: base64-decode, slice `iv = [0,12)` and
`ciphertext = [12,..)`, AEAD-decrypt, decode as text. -/
def decrypt (ciphertextBase64 keyBase64url : List Char) :
    Option (List Char) := do
  let key ← importKeyModel keyBase64url
  let combined ← atobModel ciphertextBase64
  let iv := combined.take 12
  let ciphertext := combined.drop 12
  let msg ← aeadDecrypt key iv ciphertext
  pure (bytesToStr msg)

/-! ### Store, responses and the two protocol operations -/

/-- The stored KV value with data and createdAt fields (`StoredSecret` in the
source);
`data` is the base64 envelope string, `createdAt` epoch milliseconds.  The
source stores `JSON.stringify` of this record and parses it on retrieval;
since only CreateSecret writes values, the store is modelled as holding the
parsed record. -/
structure StoredSecret where
  data : List Char
  createdAt : Int
deriving DecidableEq

/-- One KV entry: the key, the stored value, and the `expirationTtl` passed to
`put` (owned by the store's expiry mechanism). -/
structure KVEntry where
  key : List Char
  value : StoredSecret
  ttl : Int
deriving DecidableEq

/-- The KV namespace contents. -/
abbrev Store := List KVEntry

/-- Model of `SECRETS.get`: the value under the key, if present. -/
def kvGet (s : Store) (k : List Char) : Option StoredSecret :=
  match s.find? (fun e => e.key == k) with
  | none => none
  | some e => some e.value

/-- Model of `SECRETS.delete`: remove the key. -/
def kvDelete (s : Store) (k : List Char) : Store :=
  s.filter (fun e => !(e.key == k))

/-- Model of `SECRETS.put` with its TTL option: bind the key to the value. -/
def kvPut (s : Store) (k : List Char) (v : StoredSecret) (ttl : Int) : Store :=
  ⟨k, v, ttl⟩ :: kvDelete s k

/-- A JSON response body produced by either handler. -/
inductive RespBody
  /-- An error JSON body carrying the message. -/
  | errorBody (msg : List Char)
  /-- A success body of RetrieveSecret carrying the encrypted data. -/
  | secretBody (encryptedData : List Char)
  /-- A success body of CreateSecret carrying the id and expiresAt (epoch ms). -/
  | createdBody (id : List Char) (expiresAt : Int)
deriving DecidableEq

/-- An HTTP response: status code and JSON body. -/
structure Response where
  status : Nat
  body : RespBody
deriving DecidableEq

/-- The fixed message Invalid secret ID. -/
def invalidIdMsg : List Char := ("Invalid secret ID").toList

/-- The fixed message Secret not found or already viewed. -/
def notFoundMsg : List Char := ("Secret not found or already viewed").toList

/-- The fixed message Failed to retrieve secret. -/
def retrieveFailMsg : List Char := ("Failed to retrieve secret").toList

/-- The fixed message Missing or invalid encryptedData. -/
def missingDataMsg : List Char := ("Missing or invalid encryptedData").toList

/-- The fixed message Payload too large. -/
def tooLargeMsg : List Char := ("Payload too large").toList

/-- The fixed message Failed to create secret. -/
def createFailMsg : List Char := ("Failed to create secret").toList

/-- The fixed message Server configuration error: encryption key not set. -/
def keyNotSetMsg : List Char :=
  ("Server configuration error: encryption key not set").toList

/-- Model of the join of an array of strings with comma separators. -/
def joinComma : List (List Char) → List Char
  | [] => []
  | [x] => x
  | x :: y :: ys => x ++ ',' :: joinComma (y :: ys)

/-- The KV-not-bound error body of the POST handler, which interpolates the
names of the runtime `locals` keys into the message. -/
def kvNotBoundMsg (localsKeys : List (List Char)) : List Char :=
  ("Server configuration error: KV not bound. Debug: locals keys=[").toList ++
    joinComma localsKeys ++ [']']

/-- The store key `'secret:' + id`. -/
def secretKey (id : List Char) : List Char := ("secret:").toList ++ id

/-- The body of `onRequestGet` after the id-shape validation: KV lookup,
absent → 404; present → `delete` then `serverDecrypt`; a decryption throw is
caught and mapped to 500.  (An unset `ENCRYPTION_KEY` makes `serverDecrypt`
throw, likewise 500.) -/
def retrieveLookup (id : List Char) (store : Store)
    (encKey : Option (List Char)) : Response × Store :=
  match kvGet store (secretKey id) with
  | none => (⟨404, .errorBody notFoundMsg⟩, store)
  | some r =>
      let store2 := kvDelete store (secretKey id)
      match encKey.bind (fun k => serverDecrypt r.data k) with
      | none => (⟨500, .errorBody retrieveFailMsg⟩, store2)
      | some clientEnc => (⟨200, .secretBody clientEnc⟩, store2)

/-- Embeds `onRequestGet` of `functions/api/secrets/[id].ts` (RetrieveSecret), run
sequentially against a store: returns the response and the store afterwards.
The `!id` guard of the source is subsumed by `length < 6`. -/
def retrieveSecret (id : List Char) (store : Store)
    (encKey : Option (List Char)) : Response × Store :=
  if id.length < 6 ∨ 12 < id.length then
    (⟨400, .errorBody invalidIdMsg⟩, store)
  else retrieveLookup id store encKey

/-- Iterated `retrieveSecret`: the response and store after `n + 1` further
calls starting from `store`. -/
def retrieveSeq (id : List Char) (encKey : Option (List Char)) :
    Store → Nat → Response × Store
  | store, 0 => retrieveSecret id store encKey
  | store, n + 1 => retrieveSeq id encKey (retrieveSecret id store encKey).2 n

/-- The `encryptedData` field of the parsed request body, as the handler's
dynamic checks see it: a string, an absent/undefined/null field (falsy,
non-string), or a value of another type with its truthiness. -/
inductive JsonValue
  | jstr (s : List Char)
  | jmissing
  | jvother (truthy : Bool)
deriving DecidableEq

/-- JavaScript falsiness of the encryptedData field. -/
def isFalsy : JsonValue → Bool
  | .jstr s => s.isEmpty
  | .jmissing => true
  | .jvother t => !t

/-- Whether the encryptedData field is a string (its typeof check). -/
def isStringVal : JsonValue → Bool
  | .jstr _ => true
  | _ => false

/-- The parsed request body of CreateSecret. -/
structure CreateBody where
  encryptedData : JsonValue
  expiresIn : Option Int
deriving DecidableEq

/-- The runtime environment as the POST handler probes it: whether the
`SECRETS` KV namespace was found, and the `ENCRYPTION_KEY` value if set. -/
structure EnvModel where
  secretsBound : Bool
  encryptionKey : Option (List Char)
deriving DecidableEq

/-- The cap `MAX_PAYLOAD_SIZE = 100 * 1024`. -/
def maxPayloadSize : Nat := 100 * 1024

/-- The TTL clamp `Math.max(MIN_EXPIRATION, Math.min(MAX_EXPIRATION, expiresIn ?? DEFAULT_EXPIRATION))`. -/
def clampTTL (expiresIn : Option Int) : Int :=
  max 60 (min 604800 (expiresIn.getD 86400))

/-- The POST `/api/secrets` handler (CreateSecret), parameterised by the
request-independent inputs: the runtime locals' key names (used only in the
KV-not-bound debug message), the parsed body (`none` models a `request.json()`
throw, caught as 500), the clock `now` (epoch ms), the freshly minted
`nanoid(8)` id, and the random salt/iv of `serverEncrypt`.  Returns the
response and the store afterwards. -/
def createSecret (env : EnvModel) (localsKeys : List (List Char))
    (body : Option CreateBody) (store : Store) (now : Int)
    (newId : List Char) (salt iv : Bytes) : Response × Store :=
  if !env.secretsBound then
    (⟨500, .errorBody (kvNotBoundMsg localsKeys)⟩, store)
  else
    match env.encryptionKey with
    | none => (⟨500, .errorBody keyNotSetMsg⟩, store)
    | some encKey =>
        match body with
        | none => (⟨500, .errorBody createFailMsg⟩, store)
        | some b =>
            if isFalsy b.encryptedData || !(isStringVal b.encryptedData) then
              (⟨400, .errorBody missingDataMsg⟩, store)
            else
              match b.encryptedData with
              | .jstr s =>
                  if maxPayloadSize < s.length then
                    (⟨413, .errorBody tooLargeMsg⟩, store)
                  else
                    let expiresIn := clampTTL b.expiresIn
                    match serverEncrypt s encKey salt iv with
                    | none => (⟨500, .errorBody createFailMsg⟩, store)
                    | some enc =>
                        let store2 := kvPut store (secretKey newId) ⟨enc, now⟩
                          expiresIn
                        (⟨201, .createdBody newId (now + expiresIn * 1000)⟩,
                          store2)
              | _ => (⟨400, .errorBody missingDataMsg⟩, store)

/-! ### Concurrency model of RetrieveSecret

`onRequestGet` suspends at each `await`; the shared store is touched at two of
them: `SECRETS.get` and `SECRETS.delete`.  A retrieval thread is therefore a
sequence of two atomic store operations: read (with the preceding synchronous
validation) and delete (with the following decryption and response, neither of
which touches the store).  Two threads on the same id are interleaved by a
schedule. -/

/-- Progress of one in-flight RetrieveSecret call. -/
inductive Phase
  | start
  | got (found : Option StoredSecret)
  | finished (r : Response)
deriving DecidableEq

/-- One atomic step of a retrieval thread against the shared store. -/
def stepThread (id : List Char) (encKey : Option (List Char)) :
    Phase → Store → Phase × Store
  | .start, s =>
      if id.length < 6 ∨ 12 < id.length then
        (.finished ⟨400, .errorBody invalidIdMsg⟩, s)
      else (.got (kvGet s (secretKey id)), s)
  | .got none, s => (.finished ⟨404, .errorBody notFoundMsg⟩, s)
  | .got (some r), s =>
      let s2 := kvDelete s (secretKey id)
      match encKey.bind (fun k => serverDecrypt r.data k) with
      | none => (.finished ⟨500, .errorBody retrieveFailMsg⟩, s2)
      | some clientEnc => (.finished ⟨200, .secretBody clientEnc⟩, s2)
  | .finished r, s => (.finished r, s)

/-- Run two retrieval threads `A` and `B` on the same id under a schedule
(`true` steps `A`, `false` steps `B`). -/
def runSched (id : List Char) (encKey : Option (List Char)) :
    List Bool → Phase × Phase × Store → Phase × Phase × Store
  | [], st => st
  | true :: rest, (pa, pb, s) =>
      let (pa2, s2) := stepThread id encKey pa s
      runSched id encKey rest (pa2, pb, s2)
  | false :: rest, (pa, pb, s) =>
      let (pb2, s2) := stepThread id encKey pb s
      runSched id encKey rest (pa, pb2, s2)

/-! ### Concrete test vectors -/

/-- A well-shaped 8-character id, as `nanoid(8)` mints. -/
def wId : List Char := ("abcdefgh").toList

/-- A concrete 32-byte master key. -/
def wMasterRaw : Bytes := List.replicate 32 7

/-- The base64 encoding of `wMasterRaw`, as `ENCRYPTION_KEY` is configured. -/
def wMaster : List Char := arrayBufferToBase64 wMasterRaw

/-- A concrete 16-byte envelope salt. -/
def wSalt : Bytes := List.replicate 16 1

/-- A concrete 12-byte envelope nonce. -/
def wIv : Bytes := List.replicate 12 2

/-- A concrete client ciphertext blob. -/
def wClient : List Char := ("xyz").toList

/-- The envelope of `wClient` under `wMaster` with `wSalt`/`wIv`. -/
def wEnvelope : List Char := (serverEncrypt wClient wMaster wSalt wIv).getD []

/-- A store holding one well-formed record under `wId`. -/
def wStore : Store := [⟨secretKey wId, ⟨wEnvelope, 0⟩, 60⟩]

/-- The GET handler's `ENCRYPTION_KEY` binding, set to `wMaster`. -/
def wKey : Option (List Char) := some wMaster

/-- A store holding, under `wId`, a record whose `data` is not valid base64
(a single character), so `serverDecrypt` fails on it. -/
def badStore : Store := [⟨secretKey wId, ⟨(['x']), 0⟩, 60⟩]

/-- Replace every record's `createdAt` by an arbitrary function of the entry,
leaving keys, data and TTLs unchanged. -/
def mapCreatedAt (g : KVEntry → Int) (s : Store) : Store :=
  s.map (fun e => ⟨e.key, ⟨e.value.data, g e⟩, e.ttl⟩)

/-! ### Base64 round-trip lemmas -/

theorem b64Alphabet_length : b64Alphabet.length = 64 := by decide

theorem charToSextet_sextetToChar_fin :
    ∀ n : Fin 64, charToSextet (sextetToChar n.1) = some n.1 := by decide

theorem charToSextet_sextetToChar {n : Nat} (h : n < 64) :
    charToSextet (sextetToChar n) = some n :=
  charToSextet_sextetToChar_fin ⟨n, h⟩

theorem mem_b64Alphabet_ne_eq : ∀ c ∈ b64Alphabet, c ≠ '=' := by decide

theorem sextetToChar_mem {n : Nat} (h : n < 64) :
    sextetToChar n ∈ b64Alphabet := by
  have hlen : n < b64Alphabet.length := by rw [b64Alphabet_length]; exact h
  have hmem := List.getElem_mem hlen
  simp only [sextetToChar, List.getD_eq_getElem?_getD,
    List.getElem?_eq_getElem hlen, Option.getD_some]
  exact hmem

theorem sextetToChar_ne_eq (n : Nat) : sextetToChar n ≠ '=' := by
  by_cases h : n < 64
  · exact mem_b64Alphabet_ne_eq _ (sextetToChar_mem h)
  · have hle : b64Alphabet.length ≤ n := by rw [b64Alphabet_length]; omega
    simp [sextetToChar, List.getD_eq_getElem?_getD, List.getElem?_eq_none hle]

theorem mapSextets_map_sextetToChar :
    ∀ ss : List Nat, (∀ x ∈ ss, x < 64) →
      mapSextets (ss.map sextetToChar) = some ss := by
  intro ss
  induction ss with
  | nil => intro _; rfl
  | cons x xs ih =>
      intro h
      have hx : x < 64 := h x (List.mem_cons_self x xs)
      have hxs : ∀ y ∈ xs, y < 64 := fun y hy => h y (List.mem_cons_of_mem _ hy)
      simp [mapSextets, charToSextet_sextetToChar hx, ih hxs]

theorem bytesToSextets_lt :
    ∀ bs : Bytes, (∀ b ∈ bs, b < 256) → ∀ x ∈ bytesToSextets bs, x < 64 := by
  intro bs
  induction bs using bytesToSextets.induct with
  | case1 => intro _ x hx; simp [bytesToSextets] at hx
  | case2 a =>
      intro h x hx
      have ha : a < 256 := h a (by simp)
      simp [bytesToSextets] at hx
      rcases hx with h1 | h1 <;> omega
  | case3 a b =>
      intro h x hx
      have ha : a < 256 := h a (by simp)
      have hb : b < 256 := h b (by simp)
      simp [bytesToSextets] at hx
      rcases hx with h1 | h1 | h1 <;> omega
  | case4 a b c rest ih =>
      intro h x hx
      have ha : a < 256 := h a (by simp)
      have hb : b < 256 := h b (by simp)
      have hc : c < 256 := h c (by simp)
      have hrest : ∀ y ∈ rest, y < 256 := fun y hy => h y (by simp [hy])
      simp only [bytesToSextets, List.mem_cons] at hx
      rcases hx with h1 | h1 | h1 | h1 | h1
      · omega
      · omega
      · omega
      · omega
      · exact ih hrest x h1

theorem sextetsToBytes_bytesToSextets :
    ∀ bs : Bytes, (∀ b ∈ bs, b < 256) →
      sextetsToBytes (bytesToSextets bs) = some bs := by
  intro bs
  induction bs using bytesToSextets.induct with
  | case1 => intro _; rfl
  | case2 a =>
      intro h
      have ha : a < 256 := h a (by simp)
      simp only [bytesToSextets, sextetsToBytes, Option.some.injEq,
        List.cons.injEq, and_true]
      omega
  | case3 a b =>
      intro h
      have ha : a < 256 := h a (by simp)
      have hb : b < 256 := h b (by simp)
      simp only [bytesToSextets, sextetsToBytes, Option.some.injEq,
        List.cons.injEq, and_true]
      omega
  | case4 a b c rest ih =>
      intro h
      have ha : a < 256 := h a (by simp)
      have hb : b < 256 := h b (by simp)
      have hc : c < 256 := h c (by simp)
      have hrest : ∀ y ∈ rest, y < 256 := fun y hy => h y (by simp [hy])
      simp only [bytesToSextets, sextetsToBytes, ih hrest, Option.map_some',
        Option.some.injEq, List.cons.injEq, and_true]
      omega

theorem padCount_cons3 (a b c : Nat) (rest : Bytes) :
    padCount (a :: b :: c :: rest) = padCount rest := by
  simp only [padCount, List.length_cons]
  have : (rest.length + 1 + 1 + 1) % 3 = rest.length % 3 := by omega
  rw [this]

theorem bytesToSextets_length_padCount :
    ∀ bs : Bytes, ((bytesToSextets bs).length + padCount bs) % 4 = 0 ∧
      (bytesToSextets bs).length % 4 ≠ 1 := by
  intro bs
  induction bs using bytesToSextets.induct with
  | case1 => decide
  | case2 a => simp [bytesToSextets, padCount]
  | case3 a b => simp [bytesToSextets, padCount]
  | case4 a b c rest ih =>
      simp only [bytesToSextets, List.length_cons, padCount_cons3]
      omega

theorem b64DecodeCore_encode (bs : Bytes) (h : ∀ b ∈ bs, b < 256) :
    b64DecodeCore ((bytesToSextets bs).map sextetToChar) = some bs := by
  have hlen := (bytesToSextets_length_padCount bs).2
  have hmap := mapSextets_map_sextetToChar (bytesToSextets bs) (bytesToSextets_lt bs h)
  simp [b64DecodeCore, List.length_map, hlen, hmap,
    sextetsToBytes_bytesToSextets bs h]

theorem stripAtobPad_append_eq (xs : List Char) (j : Nat)
    (hx : ∀ c ∈ xs, c ≠ '=') (hj : j ≤ 2)
    (hlen : (xs.length + j) % 4 = 0) :
    stripAtobPad (xs ++ List.replicate j '=') = xs := by
  have hmod : (xs ++ List.replicate j '=').length % 4 = 0 := by
    simp only [List.length_append, List.length_replicate]
    exact hlen
  interval_cases j
  · -- j = 0: no padding; neither take-condition can hold
    rw [List.replicate_zero, List.append_nil] at hmod ⊢
    rw [stripAtobPad, if_pos hmod]
    cases hxr : xs.reverse with
    | nil => simp [hxr]
    | cons y ys =>
        have hy : y ≠ '=' := by
          apply hx
          rw [← List.mem_reverse, hxr]
          exact List.mem_cons_self y ys
        have hc1 : List.take 2 (y :: ys) ≠ ['=', '='] := by simp [hy]
        have hc2 : List.take 1 (y :: ys) ≠ ['='] := by simp [hy]
        rw [if_neg hc1, if_neg hc2]
  · -- j = 1: one '=' is stripped by the second branch
    have hrev : (xs ++ List.replicate 1 '=').reverse = '=' :: xs.reverse := by
      simp
    rw [stripAtobPad, if_pos hmod, hrev]
    cases hxr : xs.reverse with
    | nil =>
        have hxe : xs.length = 0 := by
          simpa using congrArg List.length (congrArg List.reverse hxr)
        omega
    | cons y ys =>
        have hy : y ≠ '=' := by
          apply hx
          rw [← List.mem_reverse, hxr]
          exact List.mem_cons_self y ys
        have hc1 : List.take 2 ('=' :: y :: ys) ≠ ['=', '='] := by simp [hy]
        have ht : List.take 1 ('=' :: y :: ys) = ['='] := rfl
        rw [if_neg hc1, if_pos ht]
        show (y :: ys).reverse = xs
        rw [← hxr, List.reverse_reverse]
  · -- j = 2: both '=' are stripped by the first branch
    have hrev : (xs ++ List.replicate 2 '=').reverse = '=' :: '=' :: xs.reverse := by
      simp [List.replicate]
    have ht : List.take 2 ('=' :: '=' :: xs.reverse) = ['=', '='] := rfl
    rw [stripAtobPad, if_pos hmod, hrev, if_pos ht]
    show xs.reverse.reverse = xs
    rw [List.reverse_reverse]

theorem padCount_le_two (bs : Bytes) : padCount bs ≤ 2 := by
  unfold padCount
  rcases hm : bs.length % 3 with _ | _ | k <;> simp

theorem atob_arrayBufferToBase64 (bs : Bytes) (h : ∀ b ∈ bs, b < 256) :
    atobModel (arrayBufferToBase64 bs) = some bs := by
  have hne : ∀ c ∈ (bytesToSextets bs).map sextetToChar, c ≠ '=' := by
    intro c hc
    rcases List.mem_map.1 hc with ⟨n, _, rfl⟩
    exact sextetToChar_ne_eq n
  have hlen : (((bytesToSextets bs).map sextetToChar).length + padCount bs) % 4 = 0 := by
    rw [List.length_map]
    exact (bytesToSextets_length_padCount bs).1
  rw [atobModel, arrayBufferToBase64,
    stripAtobPad_append_eq _ _ hne (padCount_le_two bs) hlen]
  exact b64DecodeCore_encode bs h

theorem dropWhile_replicate_append (p : Char → Bool) (a : Char) (hp : p a = true) :
    ∀ (j : Nat) (l : List Char),
      (List.replicate j a ++ l).dropWhile p = l.dropWhile p := by
  intro j
  induction j with
  | zero => intro l; simp
  | succ k ih =>
      intro l
      simp only [List.replicate_succ, List.cons_append, List.dropWhile_cons, hp,
        if_true]
      exact ih l

theorem stripTrailingEq_append_replicate (xs : List Char) (j : Nat)
    (hx : ∀ c ∈ xs, c ≠ '=') :
    stripTrailingEq (xs ++ List.replicate j '=') = xs := by
  rw [stripTrailingEq, List.reverse_append, List.reverse_replicate,
    dropWhile_replicate_append _ '=' (by simp) j xs.reverse]
  cases hxr : xs.reverse with
  | nil =>
      have hxe : xs = [] := by
        have := congrArg List.reverse hxr
        simp only [List.reverse_reverse, List.reverse_nil] at this
        exact this
      simp [hxe]
  | cons y ys =>
      have hy : y ≠ '=' := by
        apply hx
        rw [← List.mem_reverse, hxr]
        exact List.mem_cons_self y ys
      rw [List.dropWhile_cons, if_neg (by simp [hy])]
      rw [← hxr, List.reverse_reverse]

theorem fromUrlChar_toUrlChar : ∀ c ∈ b64Alphabet, fromUrlChar (toUrlChar c) = c := by
  decide

theorem toUrlChar_mem_ne_eq : ∀ c ∈ b64Alphabet, toUrlChar c ≠ '=' := by decide

theorem addPadding_append (xs : List Char) (j : Nat) (hj : j ≤ 2)
    (hlen : (xs.length + j) % 4 = 0) :
    addPadding xs = xs ++ List.replicate j '=' := by
  interval_cases j
  · rw [addPadding, if_pos (by omega)]
    simp
  · have h3 : xs.length % 4 = 3 := by omega
    rw [addPadding, if_neg (by omega)]
    rw [show 4 - xs.length % 4 = 1 by omega]
  · have h2 : xs.length % 4 = 2 := by omega
    rw [addPadding, if_neg (by omega)]
    rw [show 4 - xs.length % 4 = 2 by omega]

theorem base64url_roundtrip (bs : Bytes) (h : ∀ b ∈ bs, b < 256) :
    base64urlToArrayBuffer (arrayBufferToBase64url bs) = some bs := by
  have hlt := bytesToSextets_lt bs h
  have hmem : ∀ c ∈ (bytesToSextets bs).map sextetToChar, c ∈ b64Alphabet := by
    intro c hc
    rcases List.mem_map.1 hc with ⟨n, hn, rfl⟩
    exact sextetToChar_mem (hlt n hn)
  have hne : ∀ c ∈ ((bytesToSextets bs).map sextetToChar).map toUrlChar, c ≠ '=' := by
    intro c hc
    rcases List.mem_map.1 hc with ⟨d, hd, rfl⟩
    exact toUrlChar_mem_ne_eq d (hmem d hd)
  have hurl : arrayBufferToBase64url bs =
      ((bytesToSextets bs).map sextetToChar).map toUrlChar := by
    rw [arrayBufferToBase64url, arrayBufferToBase64, List.map_append,
      List.map_replicate]
    rw [show toUrlChar '=' = '=' from rfl]
    exact stripTrailingEq_append_replicate _ _ hne
  have hback : (((bytesToSextets bs).map sextetToChar).map toUrlChar).map fromUrlChar =
      (bytesToSextets bs).map sextetToChar := by
    rw [List.map_map]
    have : ∀ c ∈ (bytesToSextets bs).map sextetToChar,
        (fromUrlChar ∘ toUrlChar) c = id c := by
      intro c hc
      exact fromUrlChar_toUrlChar c (hmem c hc)
    rw [List.map_congr_left this, List.map_id]
  have hlen : (((bytesToSextets bs).map sextetToChar).length + padCount bs) % 4 = 0 := by
    rw [List.length_map]
    exact (bytesToSextets_length_padCount bs).1
  have hne2 : ∀ c ∈ (bytesToSextets bs).map sextetToChar, c ≠ '=' := by
    intro c hc
    rcases List.mem_map.1 hc with ⟨n, _, rfl⟩
    exact sextetToChar_ne_eq n
  rw [base64urlToArrayBuffer, hurl, hback,
    addPadding_append _ (padCount bs) (padCount_le_two bs) hlen,
    atobModel, stripAtobPad_append_eq _ _ hne2 (padCount_le_two bs) hlen]
  exact b64DecodeCore_encode bs h

/-! ### AEAD and two-layer round-trip lemmas -/

theorem maskBytes_length (key iv : Bytes) :
    ∀ (i : Nat) (m : Bytes), (maskBytes key iv i m).length = m.length := by
  intro i m
  induction m generalizing i with
  | nil => rfl
  | cons b bs ih => simp [maskBytes, ih]

theorem maskBytes_lt (key iv : Bytes) :
    ∀ (i : Nat) (m : Bytes) (x : Nat), x ∈ maskBytes key iv i m → x < 256 := by
  intro i m
  induction m generalizing i with
  | nil => intro x hx; simp [maskBytes] at hx
  | cons b bs ih =>
      intro x hx
      simp only [maskBytes, List.mem_cons] at hx
      rcases hx with h1 | h1
      · omega
      · exact ih (i + 1) x h1

theorem unmaskBytes_maskBytes (key iv : Bytes) :
    ∀ (i : Nat) (m : Bytes), (∀ b ∈ m, b < 256) →
      unmaskBytes key iv i (maskBytes key iv i m) = m := by
  intro i m
  induction m generalizing i with
  | nil => intro _; rfl
  | cons b bs ih =>
      intro h
      have hb : b < 256 := h b (by simp)
      have hbs : ∀ y ∈ bs, y < 256 := fun y hy => h y (by simp [hy])
      simp only [maskBytes, unmaskBytes, ih (i + 1) hbs, List.cons.injEq, and_true]
      omega

theorem aeadEncrypt_lt (key iv m : Bytes) :
    ∀ x ∈ aeadEncrypt key iv m, x < 256 := by
  intro x hx
  rcases List.mem_append.1 hx with h1 | h1
  · exact maskBytes_lt key iv 0 m x h1
  · rw [tagFn, List.mem_replicate] at h1
    omega

theorem aeadDecrypt_aeadEncrypt (key iv m : Bytes) (h : ∀ b ∈ m, b < 256) :
    aeadDecrypt key iv (aeadEncrypt key iv m) = some m := by
  have hmask : (maskBytes key iv 0 m ++ tagFn key iv m).length - 16 =
      (maskBytes key iv 0 m).length := by
    rw [List.length_append, maskBytes_length]
    simp [tagFn]
  have hl : ¬ ((maskBytes key iv 0 m ++ tagFn key iv m).length < 16) := by
    rw [List.length_append]
    simp [tagFn]
  rw [aeadEncrypt, aeadDecrypt, if_neg hl]
  simp only [hmask, List.take_left, List.drop_left,
    unmaskBytes_maskBytes key iv 0 m h, if_pos rfl, if_true]

theorem strToBytes_lt (p : List Char) (hp : ∀ c ∈ p, c.toNat < 256) :
    ∀ b ∈ strToBytes p, b < 256 := by
  intro b hb
  rcases List.mem_map.1 hb with ⟨c, hc, rfl⟩
  exact hp c hc

theorem bytesToStr_strToBytes (p : List Char) : bytesToStr (strToBytes p) = p := by
  rw [bytesToStr, strToBytes, List.map_map]
  have : ∀ c ∈ p, (Char.ofNat ∘ Char.toNat) c = id c := fun c _ => Char.ofNat_toNat c
  rw [List.map_congr_left this, List.map_id]

theorem sextetToChar_toNat_lt (n : Nat) : (sextetToChar n).toNat < 256 := by
  by_cases h : n < 64
  · exact (by decide : ∀ c ∈ b64Alphabet, c.toNat < 256) _ (sextetToChar_mem h)
  · have hle : b64Alphabet.length ≤ n := by rw [b64Alphabet_length]; omega
    simp [sextetToChar, List.getD_eq_getElem?_getD, List.getElem?_eq_none hle]

theorem arrayBufferToBase64_ascii (bs : Bytes) :
    ∀ c ∈ arrayBufferToBase64 bs, c.toNat < 256 := by
  intro c hc
  rcases List.mem_append.1 hc with h1 | h1
  · rcases List.mem_map.1 h1 with ⟨n, _, rfl⟩
    exact sextetToChar_toNat_lt n
  · rw [List.eq_of_mem_replicate h1]
    decide

theorem serverDecrypt_serverEncrypt (data mKey : List Char) (mRaw salt iv : Bytes)
    (hm : atobModel mKey = some mRaw)
    (hs : ∀ b ∈ salt, b < 256) (hsl : salt.length = 16)
    (hi : ∀ b ∈ iv, b < 256) (hil : iv.length = 12)
    (hd : ∀ c ∈ data, c.toNat < 256) :
    serverEncrypt data mKey salt iv =
      some (arrayBufferToBase64 (salt ++ iv ++
        aeadEncrypt (hkdfDerive mRaw salt serverInfo) iv (strToBytes data))) ∧
    serverDecrypt
      (arrayBufferToBase64 (salt ++ iv ++
        aeadEncrypt (hkdfDerive mRaw salt serverInfo) iv (strToBytes data))) mKey =
      some data := by
  set key := hkdfDerive mRaw salt serverInfo with hkey
  set ct := aeadEncrypt key iv (strToBytes data) with hct
  constructor
  · rw [serverEncrypt, hm, Option.map_some']
  · have hvalid : ∀ b ∈ salt ++ iv ++ ct, b < 256 := by
      intro b hb
      rcases List.mem_append.1 hb with h1 | h1
      · rcases List.mem_append.1 h1 with h2 | h2
        · exact hs b h2
        · exact hi b h2
      · exact aeadEncrypt_lt key iv _ b h1
    have hatob : atobModel (arrayBufferToBase64 (salt ++ iv ++ ct)) =
        some (salt ++ iv ++ ct) := atob_arrayBufferToBase64 _ hvalid
    have htake16 : (salt ++ iv ++ ct).take 16 = salt := by
      rw [List.append_assoc, List.take_left' hsl]
    have hdrop16 : (salt ++ iv ++ ct).drop 16 = iv ++ ct := by
      rw [List.append_assoc, List.drop_left' hsl]
    have htake12 : (iv ++ ct).take 12 = iv := List.take_left' hil
    have hdrop28 : (salt ++ iv ++ ct).drop 28 = ct := by
      rw [List.drop_left' (by rw [List.length_append, hsl, hil])]
    rw [serverDecrypt, hatob]
    simp only [Option.bind_eq_bind, Option.some_bind, htake16, hdrop16, htake12,
      hdrop28, hm, ← hkey,
      aeadDecrypt_aeadEncrypt key iv (strToBytes data) (strToBytes_lt data hd)]
    rw [bytesToStr_strToBytes]
    rfl

theorem decrypt_encrypt (p ck : List Char) (kRaw iv : Bytes)
    (hk : base64urlToArrayBuffer ck = some kRaw) (h32 : kRaw.length = 32)
    (hi : ∀ b ∈ iv, b < 256) (hil : iv.length = 12)
    (hp : ∀ c ∈ p, c.toNat < 256) :
    encrypt p ck iv =
      some (arrayBufferToBase64 (iv ++ aeadEncrypt kRaw iv (strToBytes p))) ∧
    decrypt (arrayBufferToBase64 (iv ++ aeadEncrypt kRaw iv (strToBytes p))) ck =
      some p := by
  set ct := aeadEncrypt kRaw iv (strToBytes p) with hct
  have himport : importKeyModel ck = some kRaw := by
    rw [importKeyModel, hk]
    simp [h32]
  constructor
  · rw [encrypt, himport, Option.map_some']
  · have hvalid : ∀ b ∈ iv ++ ct, b < 256 := by
      intro b hb
      rcases List.mem_append.1 hb with h1 | h1
      · exact hi b h1
      · exact aeadEncrypt_lt kRaw iv _ b h1
    have hatob : atobModel (arrayBufferToBase64 (iv ++ ct)) = some (iv ++ ct) :=
      atob_arrayBufferToBase64 _ hvalid
    have htake12 : (iv ++ ct).take 12 = iv := List.take_left' hil
    have hdrop12 : (iv ++ ct).drop 12 = ct := List.drop_left' hil
    rw [decrypt, himport]
    simp only [Option.bind_eq_bind, Option.some_bind, hatob, htake12, hdrop12,
      aeadDecrypt_aeadEncrypt kRaw iv (strToBytes p) (strToBytes_lt p hp)]
    rw [bytesToStr_strToBytes]
    rfl

/-! ### Store and handler lemmas -/

theorem kvGet_kvDelete (s : Store) (k : List Char) :
    kvGet (kvDelete s k) k = none := by
  induction s with
  | nil => rfl
  | cons e rest ih =>
      by_cases he : e.key = k
      · simpa [kvDelete, List.filter_cons, he] using ih
      · simpa [kvDelete, kvGet, List.filter_cons, List.find?_cons, he] using ih

theorem retrieveLookup_absent (id : List Char) (s : Store) (k : Option (List Char))
    (hget : kvGet s (secretKey id) = none) :
    retrieveLookup id s k = (⟨404, .errorBody notFoundMsg⟩, s) := by
  rw [retrieveLookup, hget]

theorem retrieveLookup_present (id : List Char) (s : Store) (k : Option (List Char))
    (r : StoredSecret) (hget : kvGet s (secretKey id) = some r) :
    retrieveLookup id s k =
      (match k.bind (fun kk => serverDecrypt r.data kk) with
       | none =>
           (⟨500, .errorBody retrieveFailMsg⟩, kvDelete s (secretKey id))
       | some ce =>
           (⟨200, .secretBody ce⟩, kvDelete s (secretKey id))) := by
  rw [retrieveLookup, hget]

theorem retrieve_notFound (id : List Char) (s : Store) (k : Option (List Char))
    (h6 : 6 ≤ id.length) (h12 : id.length ≤ 12)
    (hget : kvGet s (secretKey id) = none) :
    retrieveSecret id s k = (⟨404, .errorBody notFoundMsg⟩, s) := by
  rw [retrieveSecret, if_neg (by omega)]
  exact retrieveLookup_absent id s k hget

theorem retrieve_status200 (id : List Char) (s : Store) (k : Option (List Char))
    (h : (retrieveSecret id s k).1.status = 200) :
    (6 ≤ id.length ∧ id.length ≤ 12) ∧
    (retrieveSecret id s k).2 = kvDelete s (secretKey id) := by
  rw [retrieveSecret] at h ⊢
  by_cases hv : id.length < 6 ∨ 12 < id.length
  · rw [if_pos hv] at h
    simp at h
  · rw [if_neg hv] at h ⊢
    refine ⟨by omega, ?_⟩
    cases hget : kvGet s (secretKey id) with
    | none =>
        rw [retrieveLookup_absent id s k hget] at h
        simp at h
    | some r =>
        rw [retrieveLookup_present id s k r hget]
        cases k.bind (fun kk => serverDecrypt r.data kk) with
        | none => rfl
        | some ce => rfl

theorem retrieveSeq_absent (id : List Char) (k2 : Option (List Char))
    (h6 : 6 ≤ id.length) (h12 : id.length ≤ 12) (s1 : Store)
    (hget : kvGet s1 (secretKey id) = none) :
    ∀ n, retrieveSeq id k2 s1 n = (⟨404, .errorBody notFoundMsg⟩, s1) := by
  intro n
  induction n with
  | zero => exact retrieve_notFound id s1 k2 h6 h12 hget
  | succ m ih =>
      rw [retrieveSeq, retrieve_notFound id s1 k2 h6 h12 hget]
      exact ih

theorem kvGet_mapCreatedAt (g : KVEntry → Int) (s : Store) (k : List Char) :
    kvGet (mapCreatedAt g s) k =
      (s.find? (fun e => e.key == k)).map
        (fun e => (⟨e.value.data, g e⟩ : StoredSecret)) := by
  induction s with
  | nil => rfl
  | cons e rest ih =>
      by_cases he : e.key = k
      · simp [mapCreatedAt, kvGet, List.find?_cons, he]
      · have hbe : (e.key == k) = false := beq_eq_false_iff_ne.mpr he
        simp only [mapCreatedAt, List.map_cons, kvGet, List.find?_cons] at ih ⊢
        rw [hbe]
        exact ih

theorem createSecret_config_ok (encKey : List Char) (lk : List (List Char))
    (s0 : Store) (now : Int) (newId : List Char) (salt iv : Bytes)
    (b : CreateBody) :
    createSecret ⟨true, some encKey⟩ lk (some b) s0 now newId salt iv =
      (if isFalsy b.encryptedData || !(isStringVal b.encryptedData) then
        (⟨400, .errorBody missingDataMsg⟩, s0)
      else
        match b.encryptedData with
        | .jstr s =>
            if maxPayloadSize < s.length then
              (⟨413, .errorBody tooLargeMsg⟩, s0)
            else
              match serverEncrypt s encKey salt iv with
              | none => (⟨500, .errorBody createFailMsg⟩, s0)
              | some enc =>
                  (⟨201, .createdBody newId (now + clampTTL b.expiresIn * 1000)⟩,
                   kvPut s0 (secretKey newId) ⟨enc, now⟩ (clampTTL b.expiresIn))
        | _ => (⟨400, .errorBody missingDataMsg⟩, s0)) := rfl

theorem createSecret_ok (encKey : List Char) (mRaw : Bytes)
    (lk : List (List Char)) (s0 : Store) (now : Int) (newId : List Char)
    (salt iv : Bytes) (data : List Char) (expIn : Option Int)
    (hkey : atobModel encKey = some mRaw)
    (hne : data ≠ []) (hsize : data.length ≤ maxPayloadSize) :
    createSecret ⟨true, some encKey⟩ lk (some ⟨.jstr data, expIn⟩) s0 now newId
        salt iv =
      (⟨201, .createdBody newId (now + clampTTL expIn * 1000)⟩,
       ⟨secretKey newId,
        ⟨arrayBufferToBase64 (salt ++ iv ++
          aeadEncrypt (hkdfDerive mRaw salt serverInfo) iv (strToBytes data)),
         now⟩,
        clampTTL expIn⟩ :: kvDelete s0 (secretKey newId)) := by
  have hempty : data.isEmpty = false := by
    cases data with
    | nil => exact absurd rfl hne
    | cons c cs => rfl
  have hserv : serverEncrypt data encKey salt iv =
      some (arrayBufferToBase64 (salt ++ iv ++
        aeadEncrypt (hkdfDerive mRaw salt serverInfo) iv (strToBytes data))) := by
    rw [serverEncrypt, hkey, Option.map_some']
  rw [createSecret_config_ok]
  simp only [isFalsy, isStringVal, hempty, Bool.not_true, Bool.or_false,
    Bool.false_or]
  rw [if_neg (by simp), if_neg (not_lt.mpr hsize), hserv]
  rfl

/-- Claim C1: the claim asserts that two or more concurrent RetrieveSecret
calls on a stored id yield exactly one success, because lookup-and-removal is
a single atomic get-and-delete.  The code instead issues `SECRETS.get` and
`SECRETS.delete` as two separate awaited store operations, so under the
schedule get-A, get-B, delete-A, delete-B both concurrent calls find the
record and both return 200 with the secret: double delivery, refuting the
at-most-once property on the code as written. -/
theorem c1_concurrent_double_delivery :
    runSched wId wKey [true, false, true, false] (.start, .start, wStore) =
      (.finished ⟨200, .secretBody wClient⟩,
       .finished ⟨200, .secretBody wClient⟩, []) := by
  decide

/-- Claim C2: once a RetrieveSecret call on an id has succeeded (status 200),
every subsequent RetrieveSecret call on that id — any number of further calls,
under any `ENCRYPTION_KEY` configuration — observes the record as absent,
returns 404 with the not-found message, and leaves the store unchanged:
the Delivered state is terminal and irreversible. -/
theorem c2_delivered_is_terminal (id : List Char) (s : Store)
    (k k2 : Option (List Char)) (n : Nat)
    (h : (retrieveSecret id s k).1.status = 200) :
    retrieveSeq id k2 ((retrieveSecret id s k).2) n =
      (⟨404, .errorBody notFoundMsg⟩, (retrieveSecret id s k).2) := by
  obtain ⟨⟨h6, h12⟩, hs2⟩ := retrieve_status200 id s k h
  have hget : kvGet ((retrieveSecret id s k).2) (secretKey id) = none := by
    rw [hs2]
    exact kvGet_kvDelete s (secretKey id)
  exact retrieveSeq_absent id k2 h6 h12 _ hget n

/-- Witness for claim C2 at a concrete store: the first retrieval of `wId`
succeeds, and the next three calls all return not-found. -/
theorem c2_delivered_is_terminal_witness :
    (retrieveSecret wId wStore wKey).1.status = 200 ∧
    retrieveSeq wId wKey ((retrieveSecret wId wStore wKey).2) 2 =
      (⟨404, .errorBody notFoundMsg⟩, (retrieveSecret wId wStore wKey).2) :=
  ⟨by decide, c2_delivered_is_terminal wId wStore wKey wKey 2 (by decide)⟩

/-- Claim C3 (counterexample): a record under a well-shaped id holds a blob
that fails envelope decryption (`'x'` is not valid base64).  The RetrieveSecret
call finds the record present and then fails (500), yet the record is gone:
the store afterwards is empty and a repeat call returns 404.  This refutes the
claim that a failed retrieval leaves the record in the store, still
retrievable by a later call — the code deletes before decrypting. -/
theorem c3_failed_decrypt_deletes_counterexample :
    kvGet badStore (secretKey wId) = some ⟨(['x']), 0⟩ ∧
    (retrieveSecret wId badStore wKey).1 =
      ⟨500, .errorBody retrieveFailMsg⟩ ∧
    (retrieveSecret wId badStore wKey).2 = [] ∧
    retrieveSecret wId [] wKey = (⟨404, .errorBody notFoundMsg⟩, []) := by
  decide

/-- Claim C3 (amended): a RetrieveSecret call on a well-shaped id that finds
the record present removes it from the store whether or not the envelope
decryption that follows succeeds — the store afterwards is exactly the store
with the key deleted, and the id is absent from it. -/
theorem c3_present_always_deleted (id : List Char) (s : Store)
    (k : Option (List Char)) (r : StoredSecret)
    (h6 : 6 ≤ id.length) (h12 : id.length ≤ 12)
    (hget : kvGet s (secretKey id) = some r) :
    (retrieveSecret id s k).2 = kvDelete s (secretKey id) ∧
    kvGet ((retrieveSecret id s k).2) (secretKey id) = none := by
  have hs : (retrieveSecret id s k).2 = kvDelete s (secretKey id) := by
    rw [retrieveSecret, if_neg (by omega), retrieveLookup_present id s k r hget]
    cases k.bind (fun kk => serverDecrypt r.data kk) with
    | none => rfl
    | some ce => rfl
  refine ⟨hs, ?_⟩
  rw [hs]
  exact kvGet_kvDelete s (secretKey id)

/-- Witness for amended claim C3: the concrete failing store of the
counterexample, where decryption fails and the record is nevertheless
deleted. -/
theorem c3_present_always_deleted_witness :
    (retrieveSecret wId badStore wKey).2 = kvDelete badStore (secretKey wId) ∧
    kvGet ((retrieveSecret wId badStore wKey).2) (secretKey wId) = none :=
  c3_present_always_deleted wId badStore wKey ⟨(['x']), 0⟩ (by decide)
    (by decide) (by decide)

/-- Claim C4: for every master key that decodes from base64, every 16-byte
salt and 12-byte envelope nonce, (a) envelope decryption inverts envelope
encryption on every client ciphertext string, and (b) for every plaintext up
to the payload cap and every 32-byte client key, the full two-layer round
trip — client encrypt, envelope encrypt, envelope decrypt, client decrypt —
recovers the plaintext. -/
theorem c4_two_layer_round_trip (mKey : List Char) (mRaw salt iv2 : Bytes)
    (hm : atobModel mKey = some mRaw)
    (hs : ∀ b ∈ salt, b < 256) (hsl : salt.length = 16)
    (hi : ∀ b ∈ iv2, b < 256) (hil : iv2.length = 12) :
    (∀ c : List Char, (∀ ch ∈ c, ch.toNat < 256) →
        ∃ envl, serverEncrypt c mKey salt iv2 = some envl ∧
          serverDecrypt envl mKey = some c) ∧
    (∀ (p ck : List Char) (kRaw iv1 : Bytes),
        (∀ ch ∈ p, ch.toNat < 256) → p.length ≤ maxPayloadSize →
        base64urlToArrayBuffer ck = some kRaw → kRaw.length = 32 →
        (∀ b ∈ iv1, b < 256) → iv1.length = 12 →
        ∃ c envl, encrypt p ck iv1 = some c ∧
          serverEncrypt c mKey salt iv2 = some envl ∧
          serverDecrypt envl mKey = some c ∧
          decrypt c ck = some p) := by
  constructor
  · intro c hc
    obtain ⟨henc, hdec⟩ :=
      serverDecrypt_serverEncrypt c mKey mRaw salt iv2 hm hs hsl hi hil hc
    exact ⟨_, henc, hdec⟩
  · intro p ck kRaw iv1 hp _hcap hk h32 hi1 hil1
    obtain ⟨hce, hcd⟩ := decrypt_encrypt p ck kRaw iv1 hk h32 hi1 hil1 hp
    have hcascii : ∀ ch ∈ arrayBufferToBase64
        (iv1 ++ aeadEncrypt kRaw iv1 (strToBytes p)), ch.toNat < 256 :=
      arrayBufferToBase64_ascii _
    obtain ⟨henv, hsd⟩ := serverDecrypt_serverEncrypt _ mKey mRaw salt iv2 hm hs
      hsl hi hil hcascii
    exact ⟨_, _, hce, henv, hsd, hcd⟩

/-- Witness for claim C4 at concrete inputs: plaintext `'hi'`, the generated
client key over raw bytes `0..31`, the concrete master key `wMaster`. -/
theorem c4_two_layer_round_trip_witness :
    ∃ c envl,
      encrypt (("hi").toList) (generateKey (List.range 32))
          (List.replicate 12 3) = some c ∧
      serverEncrypt c wMaster wSalt wIv = some envl ∧
      serverDecrypt envl wMaster = some c ∧
      decrypt c (generateKey (List.range 32)) = some (("hi").toList) :=
  (c4_two_layer_round_trip wMaster wMasterRaw wSalt wIv (by decide) (by decide)
      (by decide) (by decide) (by decide)).2
    (("hi").toList) (generateKey (List.range 32)) (List.range 32)
    (List.replicate 12 3) (by decide) (by decide) (by decide) (by decide)
    (by decide) (by decide)

/-- Claim C5: with a configured environment and a valid non-empty payload,
CreateSecret always succeeds with the clamped TTL: omitted `expiresIn` gives
86400; values below 60 become 60; values above 604800 become 604800; in-range
values pass through; and both the stored entry's TTL and the response's
`expiresAt = now + ttl` (milliseconds) use the clamped value — out-of-range
values are clamped, never rejected. -/
theorem c5_ttl_clamped (lk : List (List Char)) (encKey : List Char)
    (mRaw : Bytes) (s0 : Store) (now : Int) (newId : List Char)
    (salt iv : Bytes) (data : List Char) (expIn : Option Int)
    (hkey : atobModel encKey = some mRaw)
    (hne : data ≠ []) (hsize : data.length ≤ maxPayloadSize) :
    (createSecret ⟨true, some encKey⟩ lk (some ⟨.jstr data, expIn⟩) s0 now newId
        salt iv =
      (⟨201, .createdBody newId (now + clampTTL expIn * 1000)⟩,
       ⟨secretKey newId,
        ⟨arrayBufferToBase64 (salt ++ iv ++
          aeadEncrypt (hkdfDerive mRaw salt serverInfo) iv (strToBytes data)),
         now⟩,
        clampTTL expIn⟩ :: kvDelete s0 (secretKey newId))) ∧
    (expIn = none → clampTTL expIn = 86400) ∧
    (∀ e : Int, expIn = some e → e < 60 → clampTTL expIn = 60) ∧
    (∀ e : Int, expIn = some e → 604800 < e → clampTTL expIn = 604800) ∧
    (∀ e : Int, expIn = some e → 60 ≤ e → e ≤ 604800 → clampTTL expIn = e) := by
  refine ⟨createSecret_ok encKey mRaw lk s0 now newId salt iv data expIn hkey
    hne hsize, ?_, ?_, ?_, ?_⟩
  · intro he
    rw [he]
    rfl
  · intro e he hlt
    rw [he, clampTTL, Option.getD_some]
    omega
  · intro e he hgt
    rw [he, clampTTL, Option.getD_some]
    omega
  · intro e he hge hle
    rw [he, clampTTL, Option.getD_some]
    omega

/-- Witness for claim C5: the spec's scenarios B and C at concrete inputs —
`expiresIn = 999999999` stores TTL 604800 and `expiresIn = 1` stores TTL 60,
both succeeding with status 201. -/
theorem c5_ttl_clamped_witness :
    (createSecret ⟨true, some wMaster⟩ [] (some ⟨.jstr wClient, some 999999999⟩)
        [] 0 wId wSalt wIv =
      (⟨201, .createdBody wId (0 + clampTTL (some 999999999) * 1000)⟩,
       ⟨secretKey wId,
        ⟨arrayBufferToBase64 (wSalt ++ wIv ++
          aeadEncrypt (hkdfDerive wMasterRaw wSalt serverInfo) wIv
            (strToBytes wClient)), 0⟩,
        clampTTL (some 999999999)⟩ :: kvDelete [] (secretKey wId))) ∧
    clampTTL (some 999999999) = 604800 ∧ clampTTL (some 1) = 60 := by
  refine ⟨(c5_ttl_clamped [] wMaster wMasterRaw [] 0 wId wSalt wIv wClient
      (some 999999999) (by decide) (by decide) (by decide)).1, ?_, ?_⟩
  · exact (c5_ttl_clamped [] wMaster wMasterRaw [] 0 wId wSalt wIv wClient
      (some 999999999) (by decide) (by decide) (by decide)).2.2.2.1 999999999
      rfl (by omega)
  · exact (c5_ttl_clamped [] wMaster wMasterRaw [] 0 wId wSalt wIv wClient
      (some 1) (by decide) (by decide) (by decide)).2.2.1 1 rfl (by omega)

/-- Claim C6: RetrieveSecret validates the id shape before any store access:
an id shorter than 6 or longer than 12 characters is answered with the 400
validation error and the store is returned untouched (the response does not
depend on the store at all); an id of length 6 through 12 passes the shape
check and the call proceeds to the store lookup (`retrieveLookup`, which
begins with `kvGet`). -/
theorem c6_id_shape_gate (id : List Char) (s : Store) (k : Option (List Char)) :
    ((id.length < 6 ∨ 12 < id.length) →
      retrieveSecret id s k = (⟨400, .errorBody invalidIdMsg⟩, s)) ∧
    (6 ≤ id.length → id.length ≤ 12 →
      retrieveSecret id s k = retrieveLookup id s k) := by
  constructor
  · intro hbad
    rw [retrieveSecret, if_pos hbad]
  · intro h6 h12
    rw [retrieveSecret, if_neg (by omega)]

/-- Witness for claim C6 at the spec's boundary lengths: ids of length 5 and
13 are rejected before any lookup; ids of length 6 and 12 reach the lookup. -/
theorem c6_id_shape_gate_witness :
    retrieveSecret (("abcde").toList) wStore wKey =
      (⟨400, .errorBody invalidIdMsg⟩, wStore) ∧
    retrieveSecret (("abcdefghijklm").toList) wStore wKey =
      (⟨400, .errorBody invalidIdMsg⟩, wStore) ∧
    retrieveSecret (("abcdef").toList) wStore wKey =
      retrieveLookup (("abcdef").toList) wStore wKey ∧
    retrieveSecret (("abcdefghijkl").toList) wStore wKey =
      retrieveLookup (("abcdefghijkl").toList) wStore wKey :=
  ⟨(c6_id_shape_gate _ wStore wKey).1 (by decide),
   (c6_id_shape_gate _ wStore wKey).1 (by decide),
   (c6_id_shape_gate _ wStore wKey).2 (by decide) (by decide),
   (c6_id_shape_gate _ wStore wKey).2 (by decide) (by decide)⟩

/-- Claim C7: with a configured environment, CreateSecret rejects with the
400 validation error any request whose `encryptedData` is missing, empty or
not a string, and rejects with the 413 payload-too-large error any string
payload above the 100 KiB cap; in both cases the store is returned unchanged
and the response carries no id. -/
theorem c7_create_validation (encKey : List Char) (lk : List (List Char))
    (s0 : Store) (now : Int) (newId : List Char) (salt iv : Bytes)
    (b : CreateBody) :
    ((isFalsy b.encryptedData = true ∨ isStringVal b.encryptedData = false) →
      createSecret ⟨true, some encKey⟩ lk (some b) s0 now newId salt iv =
        (⟨400, .errorBody missingDataMsg⟩, s0)) ∧
    (∀ data : List Char, b.encryptedData = .jstr data →
      maxPayloadSize < data.length →
      createSecret ⟨true, some encKey⟩ lk (some b) s0 now newId salt iv =
        (⟨413, .errorBody tooLargeMsg⟩, s0)) := by
  constructor
  · intro hcond
    have hc : (isFalsy b.encryptedData || !(isStringVal b.encryptedData)) = true := by
      rcases hcond with h | h <;> simp [h]
    rw [createSecret_config_ok, if_pos hc]
  · intro data hdata hlen
    have hne : data ≠ [] := by
      intro h0
      rw [h0] at hlen
      simp [maxPayloadSize] at hlen
    have hempty : data.isEmpty = false := by
      cases data with
      | nil => exact absurd rfl hne
      | cons c cs => rfl
    rw [createSecret_config_ok, hdata,
      if_neg (by simp [isFalsy, isStringVal, hempty])]
    simp only [hlen, if_true]

/-- Witness for claim C7: a body with no `encryptedData` is rejected with the
validation error, and a 102401-character payload is rejected as too large;
both leave the store empty. -/
theorem c7_create_validation_witness :
    createSecret ⟨true, some wMaster⟩ [] (some ⟨.jmissing, none⟩) [] 0 wId
        wSalt wIv = (⟨400, .errorBody missingDataMsg⟩, []) ∧
    createSecret ⟨true, some wMaster⟩ []
        (some ⟨.jstr (List.replicate 102401 'a'), none⟩) [] 0 wId wSalt wIv =
      (⟨413, .errorBody tooLargeMsg⟩, []) :=
  ⟨(c7_create_validation wMaster [] [] 0 wId wSalt wIv ⟨.jmissing, none⟩).1
     (Or.inl rfl),
   (c7_create_validation wMaster [] [] 0 wId wSalt wIv
       ⟨.jstr (List.replicate 102401 'a'), none⟩).2
     (List.replicate 102401 'a') rfl
     (by rw [List.length_replicate]; norm_num [maxPayloadSize])⟩

/-- Claim C8 (counterexample): the KV-not-bound configuration error of
CreateSecret interpolates the runtime locals' key names into the response
body — two environments differing only in that internal structure produce
different error bodies, and the body literally carries the debug text — so
internal diagnostic detail does appear in a response body, refuting the claim
as stated. -/
theorem c8_debug_detail_counterexample :
    (createSecret ⟨false, none⟩ [("runtime").toList] none [] 0 [] [] []).1 ≠
      (createSecret ⟨false, none⟩ [("env").toList] none [] 0 [] [] []).1 ∧
    (createSecret ⟨false, none⟩ [("runtime").toList] none [] 0 [] [] []).1.body =
      .errorBody (kvNotBoundMsg [("runtime").toList]) := by
  decide

/-- Claim C8 (amended): every error response of RetrieveSecret, and every
error response of CreateSecret other than the KV-not-bound configuration
error, carries one of a fixed set of short constant messages in the uniform
error-object shape; only the KV-not-bound error embeds the runtime
locals' key names as debug detail. -/
theorem c8_error_messages_fixed (env : EnvModel) (lk : List (List Char))
    (body : Option CreateBody) (s0 : Store) (now : Int) (newId : List Char)
    (salt iv : Bytes) (m : List Char) (id2 : List Char) (s2 : Store)
    (k2 : Option (List Char)) (m2 : List Char) :
    (env.secretsBound = true →
      (createSecret env lk body s0 now newId salt iv).1.body = .errorBody m →
      m = keyNotSetMsg ∨ m = createFailMsg ∨ m = missingDataMsg ∨
        m = tooLargeMsg) ∧
    ((retrieveSecret id2 s2 k2).1.body = .errorBody m2 →
      m2 = invalidIdMsg ∨ m2 = notFoundMsg ∨ m2 = retrieveFailMsg) := by
  constructor
  · intro hb hm
    rw [createSecret, hb] at hm
    rw [if_neg (by simp)] at hm
    iterate 6 (all_goals try split at hm)
    all_goals simp_all
  · intro hm2
    rw [retrieveSecret, retrieveLookup] at hm2
    iterate 4 (all_goals try split at hm2)
    all_goals simp_all

/-- Witness for amended claim C8: concrete instantiations — an environment
with `SECRETS` bound but no `ENCRYPTION_KEY` yields the fixed
key-not-set message, and a too-short id yields the fixed invalid-id
message. -/
theorem c8_error_messages_fixed_witness :
    (keyNotSetMsg = keyNotSetMsg ∨ keyNotSetMsg = createFailMsg ∨
      keyNotSetMsg = missingDataMsg ∨ keyNotSetMsg = tooLargeMsg) ∧
    (invalidIdMsg = invalidIdMsg ∨ invalidIdMsg = notFoundMsg ∨
      invalidIdMsg = retrieveFailMsg) :=
  ⟨(c8_error_messages_fixed ⟨true, none⟩ [] none [] 0 [] [] [] keyNotSetMsg
      (("ab").toList) [] none invalidIdMsg).1 rfl (by decide),
   (c8_error_messages_fixed ⟨true, none⟩ [] none [] 0 [] [] [] keyNotSetMsg
      (("ab").toList) [] none invalidIdMsg).2 (by decide)⟩

/-- Claim C9: the result of RetrieveSecret does not depend on the stored
records' `createdAt` fields: replacing every record's `createdAt` by anything
whatsoever (any function of the entry) leaves the response of any retrieval
unchanged — `createdAt` is never consulted for expiry or any other retrieval
outcome. -/
theorem c9_createdAt_independent (id : List Char) (k : Option (List Char))
    (s : Store) (g : KVEntry → Int) :
    (retrieveSecret id (mapCreatedAt g s) k).1 = (retrieveSecret id s k).1 := by
  rw [retrieveSecret, retrieveSecret]
  by_cases hv : id.length < 6 ∨ 12 < id.length
  · rw [if_pos hv, if_pos hv]
  · rw [if_neg hv, if_neg hv]
    cases hf : s.find? (fun e => e.key == secretKey id) with
    | none =>
        have h1 : kvGet s (secretKey id) = none := by rw [kvGet, hf]
        have h2 : kvGet (mapCreatedAt g s) (secretKey id) = none := by
          rw [kvGet_mapCreatedAt, hf]
          rfl
        rw [retrieveLookup_absent _ _ _ h2, retrieveLookup_absent _ _ _ h1]
    | some e =>
        have h1 : kvGet s (secretKey id) = some e.value := by rw [kvGet, hf]
        have h2 : kvGet (mapCreatedAt g s) (secretKey id) =
            some ⟨e.value.data, g e⟩ := by
          rw [kvGet_mapCreatedAt, hf]
          rfl
        rw [retrieveLookup_present _ _ _ _ h2, retrieveLookup_present _ _ _ _ h1]
        cases hd : k.bind (fun kk => serverDecrypt e.value.data kk) with
        | none => simp only [hd]
        | some ce => simp only [hd]

/-- Claim C10: every 32-byte buffer round-trips through the unpadded base64url
encoding, so every key string produced by `generateKey` decodes back to its
raw 32 bytes and is accepted by `isValidKey` — a freshly generated client key
always passes the view page's key-shape check. -/
theorem c10_generated_key_valid (raw : Bytes) (h32 : raw.length = 32)
    (hv : ∀ b ∈ raw, b < 256) :
    base64urlToArrayBuffer (generateKey raw) = some raw ∧
    isValidKey (generateKey raw) = true := by
  have hrt : base64urlToArrayBuffer (arrayBufferToBase64url raw) = some raw :=
    base64url_roundtrip raw hv
  refine ⟨hrt, ?_⟩
  rw [isValidKey, generateKey, hrt]
  simp [h32]

/-- Witness for claim C10 at the concrete raw key `0..31`. -/
theorem c10_generated_key_valid_witness :
    base64urlToArrayBuffer (generateKey (List.range 32)) =
      some (List.range 32) ∧
    isValidKey (generateKey (List.range 32)) = true :=
  c10_generated_key_valid (List.range 32) (by decide) (by decide)

end Burnvelope
